import Mathlib

/-
  Verification of the network-analytics core of molt-in-the-mist.

  Shallow embedding conventions:
  * JS `Map` objects become insertion-ordered association lists (`setA` keeps
    the original position of an updated key, exactly like `Map.set`);
    per-source scratch maps that are only read back at string keys become
    total functions updated with `fun x => if x = k then v else f x`.
  * JS numbers become `ℚ` (exact rationals); decimal literals such as `0.85`,
    `0.001`, `1e-6` are embedded as the exact rationals they denote.
  * `while` loops become fuel-indexed structural recursion; the fuel chosen is
    an upper bound on the number of iterations the JS loop can perform (each
    BFS dequeues one element per iteration and every node is enqueued at most
    once, so `nodes.length + 1` bounds the BFS; the Louvain outer loop is
    explicitly capped at 50 passes in the source).
  * `x ?? d` becomes `Option.getD`, and JS string truthiness (`if (s)`)
    becomes `strTruthy` (false for `null`/missing/empty).
-/

namespace MoltMist

/-- Association-list read, mirroring JS `Map.get` (`none` = `undefined`). -/
def getA {κ ν : Type} [DecidableEq κ] : List (κ × ν) → κ → Option ν
  | [], _ => none
  | (k', v') :: rest, k => if k = k' then some v' else getA rest k

/-- Association-list write, mirroring JS `Map.set`: an existing key keeps its
original position, a new key is appended. -/
def setA {κ ν : Type} [DecidableEq κ] : List (κ × ν) → κ → ν → List (κ × ν)
  | [], k, v => [(k, v)]
  | (k', v') :: rest, k, v =>
    if k = k' then (k, v) :: rest else (k', v') :: setA rest k v

/-- Embedding of `map.get(x) ?? 0` for rational-valued maps. -/
def lookup0 (l : List (String × ℚ)) (x : String) : ℚ :=
  ((getA l x).getD 0)

/-- JS `Set.add`: append if not already present (insertion order preserved). -/
def addUnique {α : Type} [DecidableEq α] (l : List α) (x : α) : List α :=
  if x ∈ l then l else l ++ [x]

/-- JS string truthiness of an optional string: `null`, missing and `""` are
falsy. -/
def strTruthy : Option String → Bool
  | none => false
  | some s => decide (s ≠ "")

/-- A directed edge of the analyzed graph with its `weight` attribute. -/
structure SEdge where
  src : String
  tgt : String
  w : ℚ
deriving DecidableEq, Repr

/-- The graphology graph as consumed by the analytics functions: node list in
insertion order plus edge list in insertion order. -/
structure SGraph where
  nodes : List String
  edges : List SEdge
deriving DecidableEq, Repr

/-- Embedding of `graph.outDegree(u)`. -/
def outDegOf (g : SGraph) (u : String) : ℕ :=
  (g.edges.filter (fun e => e.src = u)).length

/-- Embedding of the `graph.forEachOutNeighbor(v, ...)` iteration list. -/
def outNbrs (g : SGraph) (v : String) : List String :=
  (g.edges.filter (fun e => e.src = v)).map (fun e => e.tgt)

/-! ### PageRank (src/unnamed/part_010, `calculatePageRank`, lines 8-47) -/

structure PageRankOptions where
  damping : ℚ
  iterations : ℕ
  tolerance : ℚ

/-- The defaults `{ damping = 0.85, iterations = 100, tolerance = 1e-6 }`. -/
def defaultPageRankOptions : PageRankOptions :=
  { damping := 17/20, iterations := 100, tolerance := 1/1000000 }

/-- Sum over the in-edges of `v` of `rank(source)/outDegree(source)`, with the
`outDeg > 0` guard of the source. -/
def pageRankInSum (g : SGraph) (ranks : List (String × ℚ)) (v : String) : ℚ :=
  ((g.edges.filter (fun e => e.tgt = v)).map (fun e =>
    if 0 < outDegOf g e.src then lookup0 ranks e.src / (outDegOf g e.src : ℚ)
    else 0)).sum

/-- One power iteration: `newRank = (1-d)/N + d * sum`. -/
def pageRankStep (g : SGraph) (d N : ℚ) (ranks : List (String × ℚ)) :
    List (String × ℚ) :=
  g.nodes.map (fun v => (v, (1 - d) / N + d * pageRankInSum g ranks v))

/-- The iteration loop with early exit when the summed absolute delta drops
below the tolerance; the fuel is the source's iteration bound. -/
def pageRankLoop (g : SGraph) (d N tol : ℚ) :
    ℕ → List (String × ℚ) → List (String × ℚ)
  | 0, ranks => ranks
  | fuel + 1, ranks =>
    let newRanks := pageRankStep g d N ranks
    let diff := (g.nodes.map (fun v => |lookup0 newRanks v - lookup0 ranks v|)).sum
    if diff < tol then newRanks else pageRankLoop g d N tol fuel newRanks

/-- Embedding of `calculatePageRank`: empty graph gives an empty map, otherwise iterate
from the uniform initial rank `1/N`. -/
def calculatePageRank (g : SGraph) (opts : PageRankOptions) :
    List (String × ℚ) :=
  if g.nodes.length = 0 then []
  else
    pageRankLoop g opts.damping (g.nodes.length : ℚ) opts.tolerance
      opts.iterations (g.nodes.map (fun v => (v, 1 / (g.nodes.length : ℚ))))

/-! ### Betweenness (src/unnamed/part_010, `calculateBetweenness`, 53-123) -/

/-- Brandes per-source BFS state: pending queue, pop stack, predecessor lists,
path counts and BFS distances (`-1` = undiscovered). -/
structure BState where
  queue : List String
  stack : List String
  pred : String → List String
  sigma : String → ℚ
  dist : String → ℤ

/-- Handling of one out-neighbor `w` of the dequeued node `v`: discover it
(enqueue, set distance) if unseen, then count shortest paths and record the
predecessor when `w` sits one BFS level below `v`. -/
def bfsInner (v : String) (s : BState) (w : String) : BState :=
  let s1 :=
    if s.dist w < 0 then
      { s with
        queue := s.queue ++ [w],
        dist := fun x => if x = w then s.dist v + 1 else s.dist x }
    else s
  if s1.dist w = s1.dist v + 1 then
    { s1 with
      sigma := fun x => if x = w then s1.sigma w + s1.sigma v else s1.sigma x,
      pred := fun x => if x = w then s1.pred w ++ [v] else s1.pred x }
  else s1

/-- Processing of the out-neighbors of the dequeued node `v`. -/
def bfsStep (g : SGraph) (v : String) (st : BState) : BState :=
  (outNbrs g v).foldl (bfsInner v) st

/-- The BFS `while (queue.length > 0)` loop; each iteration dequeues one node
and pushes it on the stack. -/
def bfsLoop (g : SGraph) : ℕ → BState → BState
  | 0, st => st
  | fuel + 1, st =>
    match st.queue with
    | [] => st
    | v :: rest =>
      bfsLoop g fuel (bfsStep g v { st with queue := rest, stack := st.stack ++ [v] })

/-- Dependency accumulation for one popped stack element `w`:
`delta(v) += (sigma(v)/sigma(w)) * (1 + delta(w))` for each predecessor. -/
def accumStep (sigma : String → ℚ) (pred : String → List String) (w : String)
    (delta : String → ℚ) : String → ℚ :=
  (pred w).foldl (fun d v =>
    fun x => if x = v then d v + (sigma v / sigma w) * (1 + d w) else d x) delta

/-- The `while (stack.length > 0)` back-propagation, consuming the stack in
pop (reverse-push) order; also adds `delta(w)` into the betweenness totals for
`w ≠ s`. -/
def accumLoop (s : String) (sigma : String → ℚ) (pred : String → List String) :
    List String → (String → ℚ) → (String → ℚ) → (String → ℚ) × (String → ℚ)
  | [], delta, bw => (delta, bw)
  | w :: ws, delta, bw =>
    let delta' := accumStep sigma pred w delta
    let bw' :=
      if w = s then bw else fun x => if x = w then bw w + delta' w else bw x
    accumLoop s sigma pred ws delta' bw'

/-- One full Brandes source iteration, updating the betweenness totals. -/
def brandesSource (g : SGraph) (bw : String → ℚ) (s : String) : String → ℚ :=
  let st0 : BState :=
    { queue := [s], stack := [],
      pred := fun _ => [],
      sigma := fun x => if x = s then 1 else 0,
      dist := fun x => if x = s then 0 else -1 }
  let st := bfsLoop g (g.nodes.length + 1) st0
  (accumLoop s st.sigma st.pred st.stack.reverse (fun _ => 0) bw).2

/-- Embedding of `calculateBetweenness` with an explicit source list (the source uses all
nodes when no sample size is given; the random sampling path is external
randomness and is not exercised by the claims). -/
def calculateBetweennessOn (g : SGraph) (sources : List String) :
    List (String × ℚ) :=
  let bw := sources.foldl (fun b s => brandesSource g b s) (fun _ => (0 : ℚ))
  let N := g.nodes.length
  let scaleFactor : ℚ :=
    if sources.length < N then (N : ℚ) / (sources.length : ℚ) else 1
  if 2 < N then
    g.nodes.map (fun v =>
      (v, bw v * (1 / (((N : ℚ) - 1) * ((N : ℚ) - 2))) * scaleFactor))
  else g.nodes.map (fun v => (v, bw v))

/-- Embedding of `calculateBetweenness(graph)` without sampling: sources = all nodes. -/
def calculateBetweenness (g : SGraph) : List (String × ℚ) :=
  calculateBetweennessOn g g.nodes

/-! ### Closeness (src/unnamed/part_010, `calculateCloseness`, 128-158) -/

/-- Per-source closeness BFS: returns (totalDist, reachable). `dist` plays the
role of the JS `dist` map (`none` = absent). -/
def closeBFS (g : SGraph) :
    ℕ → List String → (String → Option ℕ) → ℕ → ℕ → ℕ × ℕ
  | 0, _, _, td, r => (td, r)
  | fuel + 1, queue, dist, td, r =>
    match queue with
    | [] => (td, r)
    | v :: rest =>
      let d := (dist v).getD 0
      let st := (outNbrs g v).foldl
        (fun (acc : (String → Option ℕ) × ℕ × ℕ × List String) w =>
          match acc.1 w with
          | some _ => acc
          | none =>
            (fun x => if x = w then some (d + 1) else acc.1 x,
             acc.2.1 + (d + 1), acc.2.2.1 + 1, acc.2.2.2 ++ [w]))
        (dist, td, r, rest)
      closeBFS g fuel st.2.2.2 st.1 st.2.1 st.2.2.1

/-- Closeness of one source: `reachable / totalDist`, `0` when nothing is
reachable. -/
def closenessOf (g : SGraph) (s : String) : ℚ :=
  let res := closeBFS g (g.nodes.length + 1) [s]
    (fun x => if x = s then some 0 else none) 0 0
  if 0 < res.2 then (res.2 : ℚ) / (res.1 : ℚ) else 0

/-- Embedding of `calculateCloseness`. -/
def calculateCloseness (g : SGraph) : List (String × ℚ) :=
  g.nodes.map (fun s => (s, closenessOf g s))

/-! ### Influence scoring (src/unnamed/part_009) -/

/-- The type `InfluencerProfile['tier']`. -/
inductive Tier where
  | elite
  | major
  | rising
  | active
deriving DecidableEq, Repr

/-- Embedding of `assignTier(rank, total)` (part_009, lines 145-151): the JS float literals
`0.001`, `0.01`, `0.05` are the exact rationals below. -/
def assignTier (rank total : ℕ) : Tier :=
  let percentile : ℚ := (rank : ℚ) / (total : ℚ)
  if percentile ≤ 1/1000 ∨ rank ≤ 100 then Tier.elite
  else if percentile ≤ 1/100 ∨ rank ≤ 500 then Tier.major
  else if percentile ≤ 1/20 then Tier.rising
  else Tier.active

/-- The min/max scan of `buildNormalizer` (part_009, lines 16-32): the JS
`Infinity` / `-Infinity` sentinels become `none` (no value seen yet), and
`getNodeAttribute(node, attribute) ?? 0` is `(attr node).getD 0`. -/
def minMaxScan (g : SGraph) (attr : String → Option ℚ) :
    Option ℚ × Option ℚ :=
  g.nodes.foldl (fun p node =>
    let val := (attr node).getD 0
    let mn := match p.1 with
      | none => some val
      | some m => if val < m then some val else some m
    let mx := match p.2 with
      | none => some val
      | some m => if m < val then some val else some m
    (mn, mx)) (none, none)

/-- Embedding of `buildNormalizer`: when `range = max - min` is zero, the constant-0
function is returned and the division is never performed.  The `(none, none)`
case (empty node list) is unreachable: the only caller returns early on an
empty graph before building normalizers. -/
def buildNormalizer (g : SGraph) (attr : String → Option ℚ) : ℚ → ℚ :=
  match minMaxScan g attr with
  | (some mn, some mx) =>
    if mx - mn = 0 then fun _ => 0 else fun value => (value - mn) / (mx - mn)
  | _ => fun _ => 0

/-! ### Community detection (src/unnamed/part_012, lines 181-300) -/

/-- The `weightedDegree` map as a function: total weight of the edges incident to `v`
(`graph.forEachEdge(node, ...)` iterates both in- and out-edges). -/
def weightedDegreeOf (g : SGraph) (v : String) : ℚ :=
  ((g.edges.filter (fun e => e.src = v ∨ e.tgt = v)).map (fun e => e.w)).sum

/-- Embedding of `getCommunityTotalDegree` (part_012, lines 274-286). -/
def getCommunityTotalDegree (nc : List (String × ℕ)) (wdeg : String → ℚ)
    (c : ℕ) : ℚ :=
  ((nc.filter (fun p => p.2 = c)).map (fun p => wdeg p.1)).sum

/-- The `neighborCommunities` map built for one node: aggregate edge weight
from `node` to each neighboring community (insertion-ordered). -/
def louvainNeighborCommunities (g : SGraph) (nc : List (String × ℕ))
    (node : String) : List (ℕ × ℚ) :=
  (g.edges.filter (fun e => e.src = node ∨ e.tgt = node)).foldl
    (fun acc e =>
      let neighbor := if e.src = node then e.tgt else e.src
      let ncom := (getA nc neighbor).getD 0
      setA acc ncom ((getA acc ncom).getD 0 + e.w)) []

/-- One Louvain pass over all nodes (the body of the `while` loop in
`detectCommunities`); returns the updated assignment and the `improved`
flag. -/
def louvainPass (g : SGraph) (wdeg : String → ℚ) (m2 : ℚ)
    (start : List (String × ℕ)) : List (String × ℕ) × Bool :=
  g.nodes.foldl (fun st node =>
    let nc := st.1
    let currentCom := (getA nc node).getD 0
    let ki := wdeg node
    let ncs := louvainNeighborCommunities g nc node
    let kiIn := (getA ncs currentCom).getD 0
    let sigmaTotCurrent := getCommunityTotalDegree nc wdeg currentCom
    let best := ncs.foldl (fun best p =>
      if p.1 = currentCom then best
      else
        let sigmaTotNew := getCommunityTotalDegree nc wdeg p.1
        let deltaQ := (p.2 / m2 - sigmaTotNew * ki / (m2 * m2)) -
          (kiIn / m2 - (sigmaTotCurrent - ki) * ki / (m2 * m2))
        if best.2 < deltaQ then (p.1, deltaQ) else best) (currentCom, (0 : ℚ))
    if best.1 ≠ currentCom then (setA nc node best.1, true) else (nc, st.2))
    (start, false)

/-- The loop `while (improved && iterations < maxIterations)` with `maxIterations=50`:
run a pass, and continue only if it moved some node. -/
def louvainLoop (g : SGraph) (wdeg : String → ℚ) (m2 : ℚ) :
    ℕ → List (String × ℕ) → List (String × ℕ)
  | 0, nc => nc
  | fuel + 1, nc =>
    let res := louvainPass g wdeg m2 nc
    if res.2 then louvainLoop g wdeg m2 fuel res.1 else res.1

/-- One step of `renumberCommunities`: state = (old-id → new-id mapping,
`nextId`, result map built so far). -/
def renumberStep (st : List (ℕ × ℕ) × ℕ × List (String × ℕ))
    (p : String × ℕ) : List (ℕ × ℕ) × ℕ × List (String × ℕ) :=
  match getA st.1 p.2 with
  | some id => (st.1, st.2.1, st.2.2 ++ [(p.1, id)])
  | none => (setA st.1 p.2 st.2.1, st.2.1 + 1, st.2.2 ++ [(p.1, st.2.1)])

/-- Embedding of `renumberCommunities` (part_012, lines 288-300): walk the node→community
map in insertion order, handing out fresh contiguous ids in order of first
appearance of each community. -/
def renumberCommunities (communities : List (String × ℕ)) :
    List (String × ℕ) :=
  (communities.foldl renumberStep
    (([] : List (ℕ × ℕ)), 0, ([] : List (String × ℕ)))).2.2

/-- Embedding of `detectCommunities` (part_012, lines 181-272). -/
def detectCommunities (g : SGraph) : List (String × ℕ) :=
  if g.nodes.length = 0 then []
  else
    let init := g.nodes.zip (List.range g.nodes.length)
    let totalWeight : ℚ := (g.edges.map (fun e => e.w)).sum
    if totalWeight = 0 then init
    else
      renumberCommunities
        (louvainLoop g (weightedDegreeOf g) (totalWeight * 2) 50 init)

/-! ### Tier selection and export (src/unnamed/part_012, lines 16-174) -/

structure InfluenceWeights where
  pagerank : ℚ
  inDegree : ℚ
  karma : ℚ
  postCount : ℚ
  replyRate : ℚ
  betweenness : ℚ
deriving DecidableEq, Repr

structure ProfileMetrics where
  pagerank : ℚ
  inDegree : ℚ
  outDegree : ℚ
  karma : ℚ
  postCount : ℚ
  commentCount : ℚ
  avgRepliesPerPost : ℚ
  betweenness : ℚ
  communities : List ℕ
deriving DecidableEq, Repr

structure TopInteractions where
  repliesTo : List String
  repliesFrom : List String
deriving DecidableEq, Repr

structure InfluencerProfile where
  agentName : String
  influenceScore : ℚ
  rank : ℕ
  tier : Tier
  metrics : ProfileMetrics
  topInteractions : TopInteractions
deriving DecidableEq, Repr

/-- The `AnalyzerConfig` record (fields as used by `selectNodes` and
`exportVisualizationData`; the `tier` is a raw string so that unknown values
take the default branch, as in the source). -/
structure AnalyzerConfig where
  tier : String
  influencerTop : ℕ
  includeConnections : Bool
  minInfluenceScore : ℚ
  weights : InfluenceWeights
deriving DecidableEq, Repr

structure Community where
  id : ℕ
  name : Option String
  size : ℕ
  top_agents : List String
  dominant_submolts : List String
deriving DecidableEq, Repr

structure NetworkMetrics where
  density : ℚ
  modularity : ℚ
  component_count : ℕ
  node_count : ℕ
  edge_count : ℕ
deriving DecidableEq, Repr

/-- Node attributes as read back by the exporter (`getNodeAttributes`);
`none` models an attribute that was never set. -/
structure ExportAttrs where
  label : Option String := none
  pagerank : Option ℚ := none
  degree : Option ℚ := none
  community_id : Option ℕ := none
  karma : Option ℚ := none
  post_count : Option ℚ := none
  comment_count : Option ℚ := none
  submolts : Option (List String) := none
  betweenness : Option ℚ := none
  closeness : Option ℚ := none
  eigenvector : Option ℚ := none
  in_degree : Option ℚ := none
  out_degree : Option ℚ := none
  clustering : Option ℚ := none
deriving DecidableEq, Repr

structure VisMetrics where
  pagerank : ℚ
  betweenness : ℚ
  closeness : ℚ
  eigenvector : ℚ
  in_degree : ℚ
  out_degree : ℚ
  degree : ℚ
  clustering : ℚ
deriving DecidableEq, Repr

structure VisNode where
  id : String
  label : String
  size : ℚ
  community : ℕ
  karma : ℚ
  posts : ℚ
  comments : ℚ
  submolts : List String
  tier : Tier
  influenceScore : ℚ
  influenceRank : ℕ
  metrics : VisMetrics
  topInteractions : TopInteractions
deriving DecidableEq, Repr

structure VisLink where
  source : String
  target : String
  weight : ℚ
deriving DecidableEq, Repr

structure VisMetadata where
  collected_at : String
  total_posts : ℕ
  total_comments : ℕ
  total_agents : ℕ
  network_density : ℚ
  community_count : ℕ
  modularity : ℚ
  influencer_count : ℕ
  top_influencer : String
  avg_influence_score : ℚ
deriving DecidableEq, Repr

/-- The `influencers` field of the exported bundle (`tiers` flattened into
three lists). -/
structure InfluencersOut where
  rankings : List InfluencerProfile
  tiersElite : List String
  tiersMajor : List String
  tiersRising : List String
  weights : InfluenceWeights
deriving DecidableEq, Repr

structure VisualizationData where
  nodes : List VisNode
  links : List VisLink
  metadata : VisMetadata
  communities : List Community
  influencers : InfluencersOut
deriving DecidableEq, Repr

/-- Embedding of `expandWithConnections` (part_012, lines 163-174): union the 1-hop
neighbors of the core set, in `Set` insertion order. -/
def expandWithConnections (g : SGraph) (coreNodes : List String) :
    List String :=
  let expanded := coreNodes.foldl addUnique []
  coreNodes.foldl (fun acc node =>
    if node ∈ g.nodes then
      ((g.edges.filter (fun e => e.src = node ∨ e.tgt = node)).map
        (fun e => if e.src = node then e.tgt else e.src)).foldl addUnique acc
    else acc) expanded

/-- The loop body of the `community` branch of `selectNodes`: append the
profile's name to its community's list unless that list already holds 20. -/
def communityTopStep (acc : List (ℕ × List String))
    (profile : InfluencerProfile) : List (ℕ × List String) :=
  let comId := (profile.metrics.communities.head?).getD 0
  let list := (getA acc comId).getD []
  if list.length < 20 then setA acc comId (list ++ [profile.agentName])
  else acc

/-- Embedding of `selectNodes` (part_012, lines 117-158). -/
def selectNodes (g : SGraph) (profiles : List InfluencerProfile)
    (config : AnalyzerConfig) : List String :=
  if config.tier = "elite" then
    let topNodes := (profiles.take config.influencerTop).map (fun p => p.agentName)
    if !config.includeConnections then topNodes
    else expandWithConnections g topNodes
  else if config.tier = "expanded" then
    expandWithConnections g
      ((profiles.take config.influencerTop).map (fun p => p.agentName))
  else if config.tier = "community" then
    let communityTop := profiles.foldl communityTopStep []
    (communityTop.map (fun p => p.2)).flatten
  else if config.tier = "custom" then
    ((profiles.filter
        (fun p => config.minInfluenceScore ≤ p.influenceScore)).take
      config.influencerTop).map (fun p => p.agentName)
  else (profiles.take config.influencerTop).map (fun p => p.agentName)

/-- Embedding of `exportVisualizationData` (part_012, lines 16-112).  The `new Date()` value is
external input and is passed in as `now`. -/
def exportVisualizationData (g : SGraph) (attrs : String → ExportAttrs)
    (influencerProfiles : List InfluencerProfile)
    (communities : List Community) (networkMetrics : NetworkMetrics)
    (config : AnalyzerConfig) (postCount commentCount : ℕ) (now : String) :
    VisualizationData :=
  let includedNodes := selectNodes g influencerProfiles config
  let profileMap := (influencerProfiles.map (fun p => (p.agentName, p))).foldl
    (fun m p => setA m p.1 p.2) []
  let visNodes : List VisNode := includedNodes.map (fun nodeId =>
    let profile := getA profileMap nodeId
    let a := attrs nodeId
    { id := nodeId,
      label := (a.label).getD nodeId,
      size := if (a.pagerank).getD 0 ≠ 0 then (a.pagerank).getD 0 * 10000
        else (a.degree).getD 1,
      community := (a.community_id).getD 0,
      karma := (a.karma).getD 0,
      posts := (a.post_count).getD 0,
      comments := (a.comment_count).getD 0,
      submolts := (a.submolts).getD [],
      tier := (profile.map (fun p => p.tier)).getD Tier.active,
      influenceScore := (profile.map (fun p => p.influenceScore)).getD 0,
      influenceRank := (profile.map (fun p => p.rank)).getD 0,
      metrics :=
        { pagerank := (a.pagerank).getD 0,
          betweenness := (a.betweenness).getD 0,
          closeness := (a.closeness).getD 0,
          eigenvector := (a.eigenvector).getD 0,
          in_degree := (a.in_degree).getD 0,
          out_degree := (a.out_degree).getD 0,
          degree := (a.degree).getD 0,
          clustering := (a.clustering).getD 0 },
      topInteractions := (profile.map (fun p => p.topInteractions)).getD
        { repliesTo := [], repliesFrom := [] } })
  let visLinks : List VisLink :=
    (g.edges.filter
      (fun e => e.src ∈ includedNodes ∧ e.tgt ∈ includedNodes)).map
      (fun e => { source := e.src, target := e.tgt, weight := e.w })
  let elites := (influencerProfiles.filter (fun p => p.tier = Tier.elite)).map
    (fun p => p.agentName)
  let majors := (influencerProfiles.filter (fun p => p.tier = Tier.major)).map
    (fun p => p.agentName)
  let rising := (influencerProfiles.filter (fun p => p.tier = Tier.rising)).map
    (fun p => p.agentName)
  let avgInfluence :=
    if influencerProfiles.length ≠ 0 then
      (influencerProfiles.map (fun p => p.influenceScore)).sum /
        (influencerProfiles.length : ℚ)
    else 0
  { nodes := visNodes,
    links := visLinks,
    metadata :=
      { collected_at := now,
        total_posts := postCount,
        total_comments := commentCount,
        total_agents := g.nodes.length,
        network_density := networkMetrics.density,
        community_count := communities.length,
        modularity := networkMetrics.modularity,
        influencer_count :=
          (influencerProfiles.filter (fun p => p.tier ≠ Tier.active)).length,
        top_influencer :=
          ((influencerProfiles.head?).map (fun p => p.agentName)).getD "",
        avg_influence_score := avgInfluence },
    communities := communities,
    influencers :=
      { rankings := influencerProfiles.take (config.influencerTop * 2),
        tiersElite := elites,
        tiersMajor := majors,
        tiersRising := rising,
        weights := config.weights } }

/-! ### Graph construction (src/unnamed/part_011, `buildGraph`) -/

/-- A post record as consumed by `buildGraph` (`author` is the author's
`name`, `none` for a null author; the remaining fields of `MoltbookPost` are
not read by the edge/node construction). -/
structure MPost where
  id : String
  author : Option String
  submolt : String
deriving DecidableEq, Repr

/-- A comment record as consumed by `buildGraph`. -/
structure MComment where
  id : String
  post_id : String
  parent_id : Option String
  author : Option String
deriving DecidableEq, Repr

/-- The per-ordered-pair aggregation record of `edgeCounts`. -/
structure BEdgeData where
  weight : ℕ
  types : List String
  posts : List String
deriving DecidableEq, Repr

/-- The graph produced by `buildGraph`: node names in insertion order and one
edge per `(source, target)` key with its attributes.  Node attributes (label,
karma, counts, submolt tags) are presentational and are not modelled. -/
structure BuiltGraph where
  nodes : List String
  edges : List ((String × String) × BEdgeData)
deriving DecidableEq, Repr

/-- The node set: every agent name, plus truthy post/comment author names. -/
def buildGraphNodes (posts : List MPost) (comments : List MComment)
    (agents : List String) : List String :=
  let s0 := agents.foldl addUnique []
  let s1 := posts.foldl
    (fun s p => if strTruthy p.author then addUnique s (p.author.getD "") else s) s0
  comments.foldl
    (fun s c => if strTruthy c.author then addUnique s (c.author.getD "") else s) s1

/-- The common `edgeCounts` update for one interaction
(`source -> target`, contributing post `postId`). -/
def edgeUpdate (edgeCounts : List (String × BEdgeData))
    (source target postId : String) : List (String × BEdgeData) :=
  let edgeKey := source ++ "->" ++ target
  match getA edgeCounts edgeKey with
  | some existing =>
    setA edgeCounts edgeKey
      { weight := existing.weight + 1,
        types := addUnique existing.types "reply",
        posts :=
          if postId ≠ "" then addUnique existing.posts postId
          else existing.posts }
  | none =>
    edgeCounts ++ [(edgeKey,
      { weight := 1, types := ["reply"],
        posts := if postId ≠ "" then [postId] else [] })]

/-- Embedding of `buildGraph` (part_011, lines 4-150): node collection, the two
interaction passes over comments keyed by the string `source->target`, and
the final edge insertion with graphology's simple-digraph semantics (self-
loop insertion throws and is swallowed; duplicate insertion falls back to a
weight increment). -/
def buildGraph (posts : List MPost) (comments : List MComment)
    (agents : List String) : BuiltGraph :=
  let nodes := buildGraphNodes posts comments agents
  let postMap := (posts.map (fun p => (p.id, p))).foldl
    (fun m q => setA m q.1 q.2) []
  let commentMap := (comments.map (fun c => (c.id, c))).foldl
    (fun m q => setA m q.1 q.2) []
  -- Pass 1: replies to a parent comment.
  let ec1 := comments.foldl (fun ec c =>
    if !(strTruthy c.parent_id) then ec
    else
      match getA commentMap ((c.parent_id).getD "") with
      | none => ec
      | some parent =>
        let s := (c.author).getD ""
        let t := (parent.author).getD ""
        if !(strTruthy c.author) ∨ !(strTruthy parent.author) ∨ s = t then ec
        else if s ∉ nodes ∨ t ∉ nodes then ec
        else edgeUpdate ec s t c.post_id) []
  -- Pass 2: top-level comments reply to the post author.
  let ec2 := comments.foldl (fun ec c =>
    if strTruthy c.parent_id then ec
    else
      match getA postMap c.post_id with
      | none => ec
      | some post =>
        let s := (c.author).getD ""
        let t := (post.author).getD ""
        if !(strTruthy c.author) ∨ !(strTruthy post.author) ∨ s = t then ec
        else if s ∉ nodes ∨ t ∉ nodes then ec
        else edgeUpdate ec s t c.post_id) ec1
  -- Pass 3: materialize edges, re-splitting each key on `->`.
  let edges := ec2.foldl
    (fun (edges : List ((String × String) × BEdgeData)) kv =>
      match kv.1.splitOn "->" with
      | s :: t :: _ =>
        if s ∉ nodes ∨ t ∉ nodes then edges
        else if s = t then edges
        else
          match getA edges (s, t) with
          | some existing =>
            setA edges (s, t)
              { existing with weight := existing.weight + kv.2.weight }
          | none => edges ++ [((s, t), kv.2)]
      | _ => edges) []
  { nodes := nodes, edges := edges }

/-- Modelled from the spec (§4.1 edge rule), for comparison with `buildGraph`:
the interaction attributed to one comment — `(comment author → parent
comment's author)` for a comment with a non-null parent (skipped when the
parent id is unknown), `(comment author → post author)` for a top-level
comment; null/missing authors and self-referential pairs yield nothing. -/
def specPairOf (posts : List MPost) (comments : List MComment)
    (c : MComment) : Option (String × String) :=
  let mkPair : Option String → Option String → Option (String × String) :=
    fun a b =>
      match a, b with
      | some x, some y => if x ≠ "" ∧ y ≠ "" ∧ x ≠ y then some (x, y) else none
      | _, _ => none
  match c.parent_id with
  | some pid =>
    match getA (comments.map (fun c2 => (c2.id, c2))) pid with
    | some parent => mkPair c.author parent.author
    | none => none
  | none =>
    match getA (posts.map (fun p => (p.id, p))) c.post_id with
    | some post => mkPair c.author post.author
    | none => none

/-- Modelled from the spec: the number of comment interactions aggregated for
one ordered pair. -/
def specInteractionCount (posts : List MPost) (comments : List MComment)
    (pr : String × String) : ℕ :=
  ((comments.filterMap (specPairOf posts comments)).filter
    (fun q => q = pr)).length

/-! ### Spec-side reading of the `community` tier (§4.5), for claim C3 -/

/-- The community id the exporter attributes to a profile
(`profile.metrics.communities[0] ?? 0`). -/
def communityOf (p : InfluencerProfile) : ℕ :=
  (p.metrics.communities.head?).getD 0

/-- Community ids in order of first appearance in the profile list. -/
def communityOrder (profiles : List InfluencerProfile) : List ℕ :=
  profiles.foldl (fun acc p => addUnique acc (communityOf p)) []

/-- The first 20 members of each community in influence-ranking order,
flattened across communities in first-appearance order: the actual behavior
of the `community` tier. -/
def communityTopSpec (profiles : List InfluencerProfile) : List String :=
  ((communityOrder profiles).map (fun c =>
    ((profiles.filter (fun p => communityOf p = c)).take 20).map
      (fun p => p.agentName))).flatten

/-- Stable insertion into a list sorted by strictly-descending PageRank. -/
def insertByPagerankDesc (x : InfluencerProfile) :
    List InfluencerProfile → List InfluencerProfile
  | [] => [x]
  | y :: ys =>
    if y.metrics.pagerank < x.metrics.pagerank then x :: y :: ys
    else y :: insertByPagerankDesc x ys

/-- Stable sort by PageRank descending (insertion sort). -/
def sortByPagerankDesc (l : List InfluencerProfile) : List InfluencerProfile :=
  l.foldr insertByPagerankDesc []

/-- Modelled from the spec (§4.5 `community` line, "top-K (default 20) nodes
per community by PageRank"): for each community (in first-appearance order),
its members sorted by the profile PageRank metric descending, truncated to
20, flattened.  Used only to exhibit the divergence from `selectNodes`. -/
def communityTopByPagerank (profiles : List InfluencerProfile) : List String :=
  ((communityOrder profiles).map (fun c =>
    ((sortByPagerankDesc (profiles.filter (fun p => communityOf p = c))).take
      20).map (fun p => p.agentName))).flatten

/-- Per-community selection list of the `community` tier, spelled per
community: the first 20 profiles of community `c` in ranking order. -/
def communityEntry (l : List InfluencerProfile) (c : ℕ) : List String :=
  ((l.filter (fun p => communityOf p = c)).take 20).map (fun p => p.agentName)

/-- Embedding of `DEFAULT_WEIGHTS` (part_009, lines 4-11). -/
def DEFAULT_WEIGHTS : InfluenceWeights :=
  { pagerank := 3/10, inDegree := 1/4, karma := 3/20,
    postCount := 1/10, replyRate := 1/10, betweenness := 1/10 }

/-! ### Concrete instances used to settle the claims -/

/-- The §8 end-to-end scenario: agents A,B,C,D with edges D→C, C→B, B→A. -/
def chainGraph : SGraph :=
  { nodes := ["A", "B", "C", "D"],
    edges := [⟨"D", "C", 1⟩, ⟨"C", "B", 1⟩, ⟨"B", "A", 1⟩] }

/-- A two-node cycle: no dangling nodes. -/
def twoCycleGraph : SGraph :=
  { nodes := ["A", "B"], edges := [⟨"A", "B", 1⟩, ⟨"B", "A", 1⟩] }

/-- A graph in which node C is incident to no edge. -/
def isolatedNodeGraph : SGraph :=
  { nodes := ["A", "B", "C"], edges := [⟨"A", "B", 1⟩] }

/-- Louvain example: A isolated, B and C joined by one edge.  The detected
communities are {A} and {B,C}. -/
def louvainExampleGraph : SGraph :=
  { nodes := ["A", "B", "C"], edges := [⟨"B", "C", 1⟩] }

def emptyGraph : SGraph := { nodes := [], edges := [] }

/-- A minimal influencer profile for exercising the exporter. -/
def mkProfile (name : String) (com : ℕ) (pr : ℚ) : InfluencerProfile :=
  { agentName := name, influenceScore := 0, rank := 1, tier := Tier.active,
    metrics :=
      { pagerank := pr, inDegree := 0, outDegree := 0, karma := 0,
        postCount := 0, commentCount := 0, avgRepliesPerPost := 0,
        betweenness := 0, communities := [com] },
    topInteractions := { repliesTo := [], repliesFrom := [] } }

/-- Three ranked profiles (one community). -/
def rankedProfiles3 : List InfluencerProfile :=
  [mkProfile "p1" 0 0, mkProfile "p2" 0 0, mkProfile "p3" 0 0]

/-- An `elite` view asking for the top 1 influencer. -/
def eliteTop1Config : AnalyzerConfig :=
  { tier := "elite", influencerTop := 1, includeConnections := false,
    minInfluenceScore := 0, weights := DEFAULT_WEIGHTS }

/-- A `community` view request. -/
def communityConfig : AnalyzerConfig :=
  { tier := "community", influencerTop := 100, includeConnections := false,
    minInfluenceScore := 0, weights := DEFAULT_WEIGHTS }

/-- Twenty-one profiles in one community, ranked a0 … a20, where the last-ranked
profile a20 carries the (unique) highest PageRank. -/
def profiles21 : List InfluencerProfile :=
  (List.range 21).map (fun i =>
    mkProfile ("a" ++ toString i) 0 (if i = 20 then 1 else 0))

/-- Two profiles in two different communities. -/
def twoCommunityProfiles : List InfluencerProfile :=
  [mkProfile "x" 0 0, mkProfile "y" 1 0]

def zeroNetworkMetrics : NetworkMetrics :=
  { density := 0, modularity := 0, component_count := 0,
    node_count := 0, edge_count := 0 }

def defaultAttrs : ExportAttrs := {}

/-- Agents for the delimiter-collision input of claim C5: the third agent's
name contains the `->` used as the edge-key separator. -/
def collisionAgents : List String := ["a", "b", "b->c"]

/-- One comment by `b->c` and one reply to it by `a`: the only interaction is
the ordered pair (a, b->c). -/
def collisionComments : List MComment :=
  [{ id := "c1", post_id := "p1", parent_id := none, author := some "b->c" },
   { id := "c2", post_id := "p1", parent_id := some "c1", author := some "a" }]

/-! ## Helper lemmas about the embedding's data structures -/

theorem foldl_preserves {α σ : Type} (P : σ → Prop) (step : σ → α → σ) :
    ∀ (l : List α) (s : σ), P s → (∀ s' a, a ∈ l → P s' → P (step s' a)) →
      P (l.foldl step s) := by
  intro l
  induction l with
  | nil => intro s hs _; exact hs
  | cons x xs ih =>
    intro s hs hstep
    exact ih (step s x) (hstep s x (by simp) hs)
      (fun s' a ha hp => hstep s' a (by simp [ha]) hp)

theorem sum_map_add {α : Type} (l : List α) (f g : α → ℚ) :
    (l.map (fun x => f x + g x)).sum = (l.map f).sum + (l.map g).sum := by
  induction l with
  | nil => simp
  | cons x xs ih => simp [ih]; ring

theorem sum_map_const {α : Type} (l : List α) (c : ℚ) :
    (l.map (fun _ => c)).sum = (l.length : ℚ) * c := by
  induction l with
  | nil => simp
  | cons x xs ih => simp [ih]; ring

theorem sum_map_ite_single {α : Type} [DecidableEq α] (a : α) (c : ℚ) :
    ∀ (l : List α), l.Nodup → a ∈ l →
      (l.map (fun v => if a = v then c else 0)).sum = c := by
  intro l
  induction l with
  | nil => intro _ h; cases h
  | cons x xs ih =>
    intro hnd hmem
    rcases List.mem_cons.mp hmem with h | h
    · subst h
      have hnot : a ∉ xs := (List.nodup_cons.mp hnd).1
      have : (xs.map (fun v => if a = v then c else 0)).sum =
          (xs.map (fun _ => (0 : ℚ))).sum := by
        congr 1
        exact List.map_congr_left (fun v hv => by
          have : a ≠ v := fun he => hnot (he ▸ hv)
          simp [this])
      simp [this, sum_map_const]
    · have hne : a ≠ x := fun he => (List.nodup_cons.mp hnd).1 (he ▸ h)
      simp [hne, ih (List.nodup_cons.mp hnd).2 h]

theorem sum_fiber {α β : Type} [DecidableEq α] (l : List α) (key : β → α)
    (f : β → ℚ) :
    ∀ (E : List β), l.Nodup → (∀ e ∈ E, key e ∈ l) →
      (l.map (fun v => ((E.filter (fun e => key e = v)).map f).sum)).sum =
        (E.map f).sum := by
  intro E
  induction E with
  | nil => intro _ _; simp [sum_map_const]
  | cons e es ih =>
    intro hnd hmem
    have hsplit : ∀ v, (((e :: es).filter (fun x => key x = v)).map f).sum =
        (if key e = v then f e else 0) +
          ((es.filter (fun x => key x = v)).map f).sum := by
      intro v
      by_cases h : key e = v <;> simp [List.filter_cons, h]
    calc (l.map (fun v => (((e :: es).filter (fun x => key x = v)).map f).sum)).sum
        = (l.map (fun v => (if key e = v then f e else 0) +
            ((es.filter (fun x => key x = v)).map f).sum)).sum := by
          congr 1; exact List.map_congr_left (fun v _ => hsplit v)
      _ = (l.map (fun v => if key e = v then f e else 0)).sum +
            (l.map (fun v => ((es.filter (fun x => key x = v)).map f).sum)).sum :=
          sum_map_add l _ _
      _ = f e + (es.map f).sum := by
          rw [sum_map_ite_single (key e) (f e) l hnd (hmem e (by simp)),
            ih hnd (fun x hx => hmem x (by simp [hx]))]
      _ = ((e :: es).map f).sum := by simp

theorem getA_map_self {κ ν : Type} [DecidableEq κ] (F : κ → ν) :
    ∀ (keys : List κ) (k : κ), k ∈ keys →
      getA (keys.map (fun x => (x, F x))) k = some (F k) := by
  intro keys
  induction keys with
  | nil => intro k h; cases h
  | cons x xs ih =>
    intro k hk
    rcases List.mem_cons.mp hk with h | h
    · subst h; simp [getA]
    · by_cases he : k = x
      · subst he; simp [getA]
      · simp [getA, he, ih k h]

theorem getA_map_not_mem {κ ν : Type} [DecidableEq κ] (F : κ → ν) :
    ∀ (keys : List κ) (k : κ), k ∉ keys →
      getA (keys.map (fun x => (x, F x))) k = none := by
  intro keys
  induction keys with
  | nil => intro k _; rfl
  | cons x xs ih =>
    intro k hk
    have h1 : k ≠ x := fun he => hk (by simp [he])
    have h2 : k ∉ xs := fun he => hk (by simp [he])
    simp [getA, h1, ih k h2]

theorem getA_mem {κ ν : Type} [DecidableEq κ] :
    ∀ (l : List (κ × ν)) (k : κ) (v : ν), getA l k = some v → (k, v) ∈ l := by
  intro l
  induction l with
  | nil => intro k v h; cases h
  | cons p rest ih =>
    intro k v h
    by_cases he : k = p.1
    · have : getA (p :: rest) k = some p.2 := by
        cases p; simp [getA, he]
      rw [this] at h
      cases h
      subst he
      simp
    · have : getA (p :: rest) k = getA rest k := by
        cases p with
        | mk a b => simp only [getA]; rw [if_neg he]
      rw [this] at h
      exact List.mem_cons_of_mem _ (ih k v h)

theorem setA_append_of_getA_none {κ ν : Type} [DecidableEq κ] :
    ∀ (l : List (κ × ν)) (k : κ) (v : ν), getA l k = none →
      setA l k v = l ++ [(k, v)] := by
  intro l
  induction l with
  | nil => intro k v _; rfl
  | cons p rest ih =>
    intro k v h
    cases p with
    | mk a b =>
      by_cases he : k = a
      · exfalso; rw [show getA ((a, b) :: rest) k = some b by simp [getA, he]] at h
        cases h
      · have h2 : getA rest k = none := by
          rw [show getA ((a, b) :: rest) k = getA rest k by
            simp only [getA]; rw [if_neg he]] at h
          exact h
        simp only [setA]
        rw [if_neg he, ih k v h2]
        simp

theorem setA_map_self {κ ν : Type} [DecidableEq κ] (F : κ → ν) :
    ∀ (keys : List κ) (k : κ) (v : ν), keys.Nodup → k ∈ keys →
      setA (keys.map (fun x => (x, F x))) k v =
        keys.map (fun x => (x, if x = k then v else F x)) := by
  intro keys
  induction keys with
  | nil => intro k v _ h; cases h
  | cons x xs ih =>
    intro k v hnd hk
    rcases List.mem_cons.mp hk with h | h
    · subst h
      have hnot : k ∉ xs := (List.nodup_cons.mp hnd).1
      have htail : List.map (fun x => (x, if x = k then v else F x)) xs =
          List.map (fun x => (x, F x)) xs :=
        List.map_congr_left (fun y hy => by
          have hyk : y ≠ k := fun he => hnot (he ▸ hy)
          rw [if_neg hyk])
      simp [setA, htail]
    · have hne : k ≠ x := fun he => (List.nodup_cons.mp hnd).1 (he ▸ h)
      simp only [List.map_cons, setA]
      rw [if_neg hne, ih k v (List.nodup_cons.mp hnd).2 h,
        if_neg (fun he => hne he.symm)]

theorem mem_addUnique {α : Type} [DecidableEq α] (l : List α) (x y : α) :
    y ∈ addUnique l x ↔ y ∈ l ∨ y = x := by
  unfold addUnique
  by_cases h : x ∈ l
  · simp only [if_pos h]
    constructor
    · exact Or.inl
    · rintro (hy | rfl)
      · exact hy
      · exact h
  · simp [if_neg h]

theorem addUnique_nodup {α : Type} [DecidableEq α] (l : List α) (x : α)
    (h : l.Nodup) : (addUnique l x).Nodup := by
  unfold addUnique
  by_cases hx : x ∈ l
  · rw [if_pos hx]; exact h
  · rw [if_neg hx, List.nodup_append]
    refine ⟨h, List.nodup_singleton x, ?_⟩
    intro a ha hax
    rw [List.mem_singleton] at hax
    subst hax
    exact hx ha

/-! ## Claims -/

/-- C4: tier assignment.  For any ranking position `rank` out of `total ≥ 1`
nodes, `assignTier` yields `elite` iff `rank ≤ 100` or `rank/total ≤ 0.001`;
otherwise `major` iff `rank ≤ 500` or `rank/total ≤ 0.01`; otherwise `rising`
iff `rank/total ≤ 0.05`; otherwise `active`.  In particular, for `total =
1000`, rank 100 is `elite` and rank 101 is `major`. -/
theorem assignTier_thresholds (rank total : ℕ) (_h : 1 ≤ total) :
    (assignTier rank total = Tier.elite ↔
      (rank ≤ 100 ∨ (rank : ℚ) / (total : ℚ) ≤ 1/1000)) ∧
    (assignTier rank total = Tier.major ↔
      (¬(rank ≤ 100 ∨ (rank : ℚ) / (total : ℚ) ≤ 1/1000) ∧
        (rank ≤ 500 ∨ (rank : ℚ) / (total : ℚ) ≤ 1/100))) ∧
    (assignTier rank total = Tier.rising ↔
      (¬(rank ≤ 100 ∨ (rank : ℚ) / (total : ℚ) ≤ 1/1000) ∧
        ¬(rank ≤ 500 ∨ (rank : ℚ) / (total : ℚ) ≤ 1/100) ∧
        (rank : ℚ) / (total : ℚ) ≤ 1/20)) ∧
    (assignTier rank total = Tier.active ↔
      (¬(rank ≤ 100 ∨ (rank : ℚ) / (total : ℚ) ≤ 1/1000) ∧
        ¬(rank ≤ 500 ∨ (rank : ℚ) / (total : ℚ) ≤ 1/100) ∧
        ¬((rank : ℚ) / (total : ℚ) ≤ 1/20))) ∧
    assignTier 100 1000 = Tier.elite ∧ assignTier 101 1000 = Tier.major := by
  refine ⟨?_, ?_, ?_, ?_, by with_unfolding_all decide,
    by with_unfolding_all decide⟩ <;>
    (unfold assignTier; dsimp only; split_ifs with h1 h2 h3 <;>
      first
        | exact iff_of_true rfl (by tauto)
        | exact iff_of_false (by decide) (by tauto))

/-- C4 witness: the theorem applied at rank 100 of 1000. -/
theorem assignTier_thresholds_witness :
    1 ≤ 1000 ∧ assignTier 100 1000 = Tier.elite :=
  ⟨by decide, (assignTier_thresholds 100 1000 (by decide)).2.2.2.2.1⟩

/-- C7: the §8 end-to-end scenario.  On the 4-node graph with edges D→C, C→B
and B→A (weight 1 each), `calculateBetweenness` gives strictly positive
betweenness to B and C, zero to A and D, and `calculatePageRank` (default
options) ranks A strictly above each of B, C and D. -/
theorem chain_scenario_metrics :
    0 < lookup0 (calculateBetweenness chainGraph) "B" ∧
    0 < lookup0 (calculateBetweenness chainGraph) "C" ∧
    lookup0 (calculateBetweenness chainGraph) "A" = 0 ∧
    lookup0 (calculateBetweenness chainGraph) "D" = 0 ∧
    lookup0 (calculatePageRank chainGraph defaultPageRankOptions) "B" <
      lookup0 (calculatePageRank chainGraph defaultPageRankOptions) "A" ∧
    lookup0 (calculatePageRank chainGraph defaultPageRankOptions) "C" <
      lookup0 (calculatePageRank chainGraph defaultPageRankOptions) "A" ∧
    lookup0 (calculatePageRank chainGraph defaultPageRankOptions) "D" <
      lookup0 (calculatePageRank chainGraph defaultPageRankOptions) "A" := by
  with_unfolding_all decide

/-- C1 (amended): the exported `influencers.rankings` list is the influencer
ranking truncated to the first `influencerTop * 2` profiles — unfiltered by
the requested view, but not the full list. -/
theorem exportVisualizationData_rankings_eq_take (g : SGraph)
    (attrs : String → ExportAttrs) (profiles : List InfluencerProfile)
    (communities : List Community) (networkMetrics : NetworkMetrics)
    (config : AnalyzerConfig) (postCount commentCount : ℕ) (now : String) :
    (exportVisualizationData g attrs profiles communities networkMetrics
        config postCount commentCount now).influencers.rankings =
      profiles.take (config.influencerTop * 2) := rfl

/-- C1 counterexample: with 3 ranked profiles and `influencerTop = 1`, the
exported `rankings` has 2 entries, not one per profile — the claim that it is
the full ranking list fails. -/
theorem exportVisualizationData_rankings_not_full :
    (exportVisualizationData emptyGraph (fun _ => defaultAttrs)
        rankedProfiles3 [] zeroNetworkMetrics eliteTop1Config 0 0
        "").influencers.rankings.length = 2 ∧
    rankedProfiles3.length = 3 ∧
    (exportVisualizationData emptyGraph (fun _ => defaultAttrs)
        rankedProfiles3 [] zeroNetworkMetrics eliteTop1Config 0 0
        "").influencers.rankings ≠ rankedProfiles3 := by
  with_unfolding_all decide

/-- C3 counterexample: in a single community of 21 profiles in which the
last-ranked profile `a20` has the unique highest PageRank, the `community`
tier selects the first 20 profiles in influence-ranking order and drops
`a20`, although a top-20-per-community-by-PageRank selection must contain the
community's PageRank maximum. -/
theorem selectNodes_community_ignores_pagerank :
    "a20" ∉ selectNodes emptyGraph profiles21 communityConfig ∧
    "a20" ∈ communityTopByPagerank profiles21 ∧
    (∀ p ∈ profiles21, p.agentName ≠ "a20" → p.metrics.pagerank < 1) ∧
    (∃ p ∈ profiles21, p.agentName = "a20" ∧ p.metrics.pagerank = 1) := by
  with_unfolding_all decide

/-- C5 (code bug): on the collision input — agents `a`, `b`, `b->c`, a
comment by `b->c` and a reply to it by `a` — the only interaction is the pair
(a, b->c), yet `buildGraph` emits the single edge (a, b) with weight 1,
because the `source->target` string key is re-split on `->`.  The edge's
weight does not equal the interaction count of its ordered pair (which is
0). -/
theorem buildGraph_arrow_name_collision :
    (buildGraph [] collisionComments collisionAgents).edges =
      [(("a", "b"), { weight := 1, types := ["reply"], posts := ["p1"] })] ∧
    specInteractionCount [] collisionComments ("a", "b") = 0 ∧
    specInteractionCount [] collisionComments ("a", "b->c") = 1 := by
  with_unfolding_all decide

/-- C2 counterexample: on the graph with isolated node A and the community
{B,C}, `detectCommunities` gives the singleton community id 0 and the 2-node
community id 1 — the community with strictly more members does not get the
strictly smaller id. -/
theorem detectCommunities_not_ordered_by_size :
    detectCommunities louvainExampleGraph = [("A", 0), ("B", 1), ("C", 1)] ∧
    ((detectCommunities louvainExampleGraph).filter
      (fun p => p.2 = 1)).length = 2 ∧
    ((detectCommunities louvainExampleGraph).filter
      (fun p => p.2 = 0)).length = 1 := by
  with_unfolding_all decide

/-- C9: min-max normalization of a constant metric.  If every node carries
the same attribute value, `buildNormalizer` returns the constant-0 function
(the zero-range branch, which never divides). -/
theorem buildNormalizer_constant_zero (g : SGraph) (attr : String → Option ℚ)
    (c : ℚ) (hne : g.nodes ≠ []) (hc : ∀ v ∈ g.nodes, (attr v).getD 0 = c) :
    ∀ x : ℚ, buildNormalizer g attr x = 0 := by
  have aux : ∀ (l : List String), (∀ v ∈ l, (attr v).getD 0 = c) →
      l.foldl (fun p node =>
        let val := (attr node).getD 0
        let mn := match p.1 with
          | none => some val
          | some m => if val < m then some val else some m
        let mx := match p.2 with
          | none => some val
          | some m => if m < val then some val else some m
        (mn, mx)) (some c, some c) = (some c, some c) := by
    intro l
    induction l with
    | nil => intro _; rfl
    | cons n rest ih =>
      intro hl
      have hn : (attr n).getD 0 = c := hl n (by simp)
      simp only [List.foldl_cons, hn, lt_irrefl, if_false]
      exact ih (fun v hv => hl v (by simp [hv]))
  have hscan : minMaxScan g attr = (some c, some c) := by
    obtain ⟨n, rest, hcons⟩ := List.exists_cons_of_ne_nil hne
    have hn : (attr n).getD 0 = c := hc n (by rw [hcons]; simp)
    unfold minMaxScan
    rw [hcons]
    simp only [List.foldl_cons, hn]
    exact aux rest (fun v hv => hc v (by rw [hcons]; simp [hv]))
  intro x
  simp [buildNormalizer, hscan]

/-- C9 witness: a two-node graph with the constant attribute 5 normalizes the
input 3 to 0. -/
theorem buildNormalizer_constant_zero_witness :
    ({ nodes := ["x", "y"], edges := [] } : SGraph).nodes ≠ [] ∧
    buildNormalizer { nodes := ["x", "y"], edges := [] }
      (fun _ => some 5) 3 = 0 :=
  ⟨by decide,
    buildNormalizer_constant_zero { nodes := ["x", "y"], edges := [] }
      (fun _ => some 5) 5 (by decide) (by intro v _; rfl) 3⟩

/-! ### Claim C2: community-id renumbering -/

theorem setA_mem {κ ν : Type} [DecidableEq κ] :
    ∀ (l : List (κ × ν)) (k : κ) (v : ν) (m : κ × ν),
      m ∈ setA l k v → m ∈ l ∨ m = (k, v) := by
  intro l
  induction l with
  | nil =>
    intro k v m hm
    simp only [setA, List.mem_singleton] at hm
    exact Or.inr hm
  | cons p rest ih =>
    intro k v m hm
    cases p with
    | mk a b =>
      by_cases he : k = a
      · rw [show setA ((a, b) :: rest) k v = (k, v) :: rest by
          simp only [setA]; rw [if_pos he]] at hm
        rcases List.mem_cons.mp hm with h | h
        · exact Or.inr h
        · exact Or.inl (List.mem_cons_of_mem _ h)
      · rw [show setA ((a, b) :: rest) k v = (a, b) :: setA rest k v by
          simp only [setA]; rw [if_neg he]] at hm
        rcases List.mem_cons.mp hm with h | h
        · exact Or.inl (by simp [h])
        · rcases ih k v m h with h2 | h2
          · exact Or.inl (List.mem_cons_of_mem _ h2)
          · exact Or.inr h2

theorem zip_range_snd_lt {α : Type} (l : List α) (p : α × ℕ)
    (hp : p ∈ l.zip (List.range l.length)) : p.2 < l.length := by
  cases p with
  | mk a b => exact List.mem_range.mp (List.of_mem_zip hp).2

theorem zip_range_surj {α : Type} (l : List α) (j : ℕ) (hj : j < l.length) :
    ∃ x, (x, j) ∈ l.zip (List.range l.length) := by
  have hlen : j < (l.zip (List.range l.length)).length := by
    rw [List.length_zip, List.length_range, Nat.min_self]
    exact hj
  refine ⟨l[j], ?_⟩
  have hz := @List.getElem_zip _ _ l (List.range l.length) j hlen
  rw [List.getElem_range] at hz
  have hmem := List.getElem_mem hlen
  rw [hz] at hmem
  exact hmem

/-- Invariant of the renumbering fold: every assigned id is below `nextId`,
and every id below `nextId` has been assigned. -/
theorem renumber_fold_invariant :
    ∀ (cs : List (String × ℕ)) (st : List (ℕ × ℕ) × ℕ × List (String × ℕ)),
      (∀ m ∈ st.1, m.2 < st.2.1) →
      (∀ q ∈ st.2.2, q.2 < st.2.1) →
      (∀ j, j < st.2.1 → ∃ q ∈ st.2.2, q.2 = j) →
      (∀ q ∈ (cs.foldl renumberStep st).2.2,
          q.2 < (cs.foldl renumberStep st).2.1) ∧
      (∀ j, j < (cs.foldl renumberStep st).2.1 →
          ∃ q ∈ (cs.foldl renumberStep st).2.2, q.2 = j) := by
  intro cs
  induction cs with
  | nil => intro st h1 h2 h3; exact ⟨h2, h3⟩
  | cons c cs ih =>
    intro st h1 h2 h3
    rw [List.foldl_cons]
    rcases hg : getA st.1 c.2 with _ | id
    · have hstep : renumberStep st c =
          (setA st.1 c.2 st.2.1, st.2.1 + 1, st.2.2 ++ [(c.1, st.2.1)]) := by
        unfold renumberStep; rw [hg]
      rw [hstep]
      refine ih _ ?_ ?_ ?_
      · intro m hm
        rcases setA_mem st.1 c.2 st.2.1 m hm with h | h
        · exact Nat.lt_succ_of_lt (h1 m h)
        · rw [h]; exact Nat.lt_succ_self _
      · intro q hq
        rcases List.mem_append.mp hq with h | h
        · exact Nat.lt_succ_of_lt (h2 q h)
        · rw [List.mem_singleton.mp h]; exact Nat.lt_succ_self _
      · intro j hj
        rcases Nat.lt_succ_iff_lt_or_eq.mp hj with h | h
        · obtain ⟨q, hq, hq2⟩ := h3 j h
          exact ⟨q, List.mem_append_left _ hq, hq2⟩
        · exact ⟨(c.1, st.2.1), List.mem_append_right _ (by simp), h.symm⟩
    · have hstep : renumberStep st c =
          (st.1, st.2.1, st.2.2 ++ [(c.1, id)]) := by
        unfold renumberStep; rw [hg]
      rw [hstep]
      refine ih _ h1 ?_ ?_
      · intro q hq
        rcases List.mem_append.mp hq with h | h
        · exact h2 q h
        · rw [List.mem_singleton.mp h]
          exact h1 (c.2, id) (getA_mem st.1 c.2 id hg)
      · intro j hj
        obtain ⟨q, hq, hq2⟩ := h3 j hj
        exact ⟨q, List.mem_append_left _ hq, hq2⟩

/-- C2 (amended): `detectCommunities` assigns community ids that are
contiguous integers starting at 0 — every id below a used id is also used —
handed out in order of first appearance of each community.  (They are not
ordered by descending member count; see the counterexample.) -/
theorem detectCommunities_ids_contiguous (g : SGraph) (p : String × ℕ)
    (hp : p ∈ detectCommunities g) (j : ℕ) (hj : j ≤ p.2) :
    ∃ q ∈ detectCommunities g, q.2 = j := by
  simp only [detectCommunities] at hp ⊢
  split_ifs at hp ⊢ with hN hW
  · cases hp
  · have hlt := zip_range_snd_lt g.nodes p hp
    obtain ⟨x, hx⟩ := zip_range_surj g.nodes j (lt_of_le_of_lt hj hlt)
    exact ⟨(x, j), hx, rfl⟩
  · unfold renumberCommunities at hp ⊢
    have inv := renumber_fold_invariant
      (louvainLoop g (weightedDegreeOf g)
        ((g.edges.map (fun e => e.w)).sum * 2) 50
        (g.nodes.zip (List.range g.nodes.length)))
      (([] : List (ℕ × ℕ)), 0, ([] : List (String × ℕ)))
      (by intro m hm; cases hm) (by intro q hq; cases hq)
      (by intro j hj; simp at hj)
    have h1 := inv.1 p hp
    exact inv.2 j (lt_of_le_of_lt hj h1)

/-- C2 witness: on the concrete Louvain example, node B carries id 1 and the
theorem yields a node with id 0. -/
theorem detectCommunities_ids_contiguous_witness :
    ("B", 1) ∈ detectCommunities louvainExampleGraph ∧
    (∃ q ∈ detectCommunities louvainExampleGraph, q.2 = 0) :=
  ⟨by with_unfolding_all decide,
    detectCommunities_ids_contiguous louvainExampleGraph ("B", 1)
      (by with_unfolding_all decide) 0 (by decide)⟩

/-! ### Claim C3: the `community` tier selection -/

theorem communityOrder_append_single (l : List InfluencerProfile)
    (p : InfluencerProfile) :
    communityOrder (l ++ [p]) = addUnique (communityOrder l) (communityOf p) := by
  simp [communityOrder, List.foldl_append]

theorem communityOrder_nodup (l : List InfluencerProfile) :
    (communityOrder l).Nodup := by
  unfold communityOrder
  exact foldl_preserves List.Nodup _ l [] List.nodup_nil
    (fun s' a _ hp => addUnique_nodup s' (communityOf a) hp)

theorem mem_communityOrder_fold :
    ∀ (l : List InfluencerProfile) (acc : List ℕ) (c : ℕ),
      c ∈ l.foldl (fun a p => addUnique a (communityOf p)) acc ↔
        c ∈ acc ∨ ∃ p ∈ l, communityOf p = c := by
  intro l
  induction l with
  | nil => intro acc c; simp
  | cons q l ih =>
    intro acc c
    rw [List.foldl_cons, ih, mem_addUnique]
    constructor
    · rintro ((h | h) | h)
      · exact Or.inl h
      · exact Or.inr ⟨q, by simp, h.symm⟩
      · obtain ⟨p, hp, hpc⟩ := h
        exact Or.inr ⟨p, by simp [hp], hpc⟩
    · rintro (h | ⟨p, hp, hpc⟩)
      · exact Or.inl (Or.inl h)
      · rcases List.mem_cons.mp hp with h | h
        · exact Or.inl (Or.inr (by rw [← h, hpc]))
        · exact Or.inr ⟨p, h, hpc⟩

theorem mem_communityOrder (l : List InfluencerProfile) (c : ℕ) :
    c ∈ communityOrder l ↔ ∃ p ∈ l, communityOf p = c := by
  unfold communityOrder
  rw [mem_communityOrder_fold]
  simp

theorem communityEntry_append_other (l : List InfluencerProfile)
    (p : InfluencerProfile) (c : ℕ) (hne : communityOf p ≠ c) :
    communityEntry (l ++ [p]) c = communityEntry l c := by
  unfold communityEntry
  rw [List.filter_append]
  have : List.filter (fun q => decide (communityOf q = c)) [p] = [] := by
    simp [hne]
  rw [this, List.append_nil]

theorem communityEntry_append_same_small (l : List InfluencerProfile)
    (p : InfluencerProfile)
    (hlen : (l.filter (fun q => communityOf q = communityOf p)).length < 20) :
    communityEntry (l ++ [p]) (communityOf p) =
      communityEntry l (communityOf p) ++ [p.agentName] := by
  unfold communityEntry
  rw [List.filter_append]
  have hsing : List.filter
      (fun q => decide (communityOf q = communityOf p)) [p] = [p] := by simp
  rw [hsing, List.take_append_eq_append_take]
  have h20 : List.take 20 (l.filter (fun q => communityOf q = communityOf p)) =
      l.filter (fun q => communityOf q = communityOf p) :=
    List.take_of_length_le (le_of_lt hlen)
  obtain ⟨m, hm⟩ : ∃ m,
      20 - (l.filter (fun q => communityOf q = communityOf p)).length = m + 1 :=
    ⟨20 - (l.filter (fun q => communityOf q = communityOf p)).length - 1,
      by omega⟩
  rw [hm]
  simp [List.map_append]

theorem communityEntry_append_same_full (l : List InfluencerProfile)
    (p : InfluencerProfile)
    (hlen : ¬(l.filter (fun q => communityOf q = communityOf p)).length < 20) :
    communityEntry (l ++ [p]) (communityOf p) =
      communityEntry l (communityOf p) := by
  unfold communityEntry
  rw [List.filter_append, List.take_append_eq_append_take]
  have hm : 20 - (l.filter (fun q => communityOf q = communityOf p)).length
      = 0 := by omega
  rw [hm]
  simp

theorem communityTopStep_eq (l : List InfluencerProfile)
    (p : InfluencerProfile) :
    communityTopStep
      ((communityOrder l).map (fun c => (c, communityEntry l c))) p =
    (communityOrder (l ++ [p])).map
      (fun c => (c, communityEntry (l ++ [p]) c)) := by
  unfold communityTopStep
  rw [show ((p.metrics.communities.head?).getD 0) = communityOf p from rfl]
  dsimp only
  by_cases hc : communityOf p ∈ communityOrder l
  · rw [getA_map_self _ _ _ hc]
    have hord : communityOrder (l ++ [p]) = communityOrder l := by
      rw [communityOrder_append_single]
      unfold addUnique
      rw [if_pos hc]
    have hlen_iff : ((some (communityEntry l (communityOf p))).getD []).length
        < 20 ↔
        (l.filter (fun q => communityOf q = communityOf p)).length < 20 := by
      simp [communityEntry, List.length_take]
    by_cases hlen :
        (l.filter (fun q => communityOf q = communityOf p)).length < 20
    · rw [if_pos (hlen_iff.mpr hlen)]
      rw [show ((some (communityEntry l (communityOf p))).getD []) =
        communityEntry l (communityOf p) from rfl]
      rw [setA_map_self _ _ _ _ (communityOrder_nodup l) hc, hord]
      apply List.map_congr_left
      intro x hx
      by_cases hxc : x = communityOf p
      · subst hxc
        rw [if_pos rfl, communityEntry_append_same_small l p hlen]
      · rw [if_neg hxc,
          communityEntry_append_other l p x (fun he => hxc he.symm)]
    · rw [if_neg (fun h => hlen (hlen_iff.mp h)), hord]
      apply List.map_congr_left
      intro x hx
      by_cases hxc : x = communityOf p
      · subst hxc
        rw [communityEntry_append_same_full l p hlen]
      · rw [communityEntry_append_other l p x (fun he => hxc he.symm)]
  · rw [getA_map_not_mem _ _ _ hc]
    rw [show ((none : Option (List String)).getD []) = [] from rfl]
    rw [if_pos (by simp)]
    rw [setA_append_of_getA_none _ _ _ (getA_map_not_mem _ _ _ hc)]
    have hord : communityOrder (l ++ [p]) =
        communityOrder l ++ [communityOf p] := by
      rw [communityOrder_append_single]
      unfold addUnique
      rw [if_neg hc]
    rw [hord, List.map_append]
    congr 1
    · apply List.map_congr_left
      intro x hx
      have hxc : communityOf p ≠ x := fun he => hc (he ▸ hx)
      rw [communityEntry_append_other l p x hxc]
    · have hfl : l.filter (fun q => communityOf q = communityOf p) = [] := by
        rw [List.filter_eq_nil_iff]
        intro q hq hqc
        exact hc ((mem_communityOrder l (communityOf p)).mpr
          ⟨q, hq, by simpa using hqc⟩)
      have : communityEntry (l ++ [p]) (communityOf p) = [p.agentName] := by
        unfold communityEntry
        rw [List.filter_append, hfl]
        simp
      simp [this]

theorem communityTopFold_eq :
    ∀ (rest processed : List InfluencerProfile),
      rest.foldl communityTopStep
        ((communityOrder processed).map
          (fun c => (c, communityEntry processed c))) =
      (communityOrder (processed ++ rest)).map
        (fun c => (c, communityEntry (processed ++ rest) c)) := by
  intro rest
  induction rest with
  | nil => intro processed; simp
  | cons p rest ih =>
    intro processed
    rw [List.foldl_cons, communityTopStep_eq]
    have h := ih (processed ++ [p])
    rw [List.append_assoc, List.singleton_append] at h
    exact h

/-- C3 (amended): for the `community` tier the selected node list is, for
every community in order of first appearance, the first 20 of its member
profiles in the influence-ranking order of the profile list, flattened —
i.e. top-20 per community by composite influence rank, not by PageRank. -/
theorem selectNodes_community_eq_influence_order (g : SGraph)
    (profiles : List InfluencerProfile) (config : AnalyzerConfig)
    (ht : config.tier = "community") :
    selectNodes g profiles config = communityTopSpec profiles := by
  unfold selectNodes
  rw [ht, if_neg (by decide), if_neg (by decide), if_pos rfl]
  have hfold := communityTopFold_eq profiles []
  simp only [List.nil_append] at hfold
  have h0 : ((communityOrder ([] : List InfluencerProfile)).map
      (fun c => (c, communityEntry [] c))) = [] := rfl
  rw [h0] at hfold
  rw [hfold]
  dsimp only
  rw [List.map_map]
  rfl

/-- C3 witness: the theorem applied to two profiles in two communities under
the `community` view. -/
theorem selectNodes_community_eq_influence_order_witness :
    communityConfig.tier = "community" ∧
    selectNodes emptyGraph twoCommunityProfiles communityConfig =
      communityTopSpec twoCommunityProfiles :=
  ⟨rfl, selectNodes_community_eq_influence_order emptyGraph
    twoCommunityProfiles communityConfig rfl⟩

/-! ### Claims C6 and C10: PageRank invariants -/

theorem lookup0_map_self (l : List String) (F : String → ℚ) (v : String)
    (hv : v ∈ l) : lookup0 (l.map (fun x => (x, F x))) v = F v := by
  unfold lookup0
  rw [getA_map_self _ _ _ hv]
  rfl

/-- On a map-structured rank list, the in-sum of `v` is the sum over its
in-edges of `f(src)/outDeg(src)` (the out-degree guard always fires because
the source of an in-edge has at least that out-edge — here we use the
stronger no-dangling hypothesis). -/
theorem pageRankInSum_eq (g : SGraph) (f : String → ℚ) (v : String)
    (hsrc : ∀ e ∈ g.edges, e.src ∈ g.nodes)
    (hdang : ∀ u ∈ g.nodes, 0 < outDegOf g u) :
    pageRankInSum g (g.nodes.map (fun u => (u, f u))) v =
      ((g.edges.filter (fun e => e.tgt = v)).map
        (fun e => f e.src / (outDegOf g e.src : ℚ))).sum := by
  unfold pageRankInSum
  congr 1
  apply List.map_congr_left
  intro e he
  have hesrc : e.src ∈ g.nodes := hsrc e (List.mem_of_mem_filter he)
  rw [if_pos (hdang e.src hesrc), lookup0_map_self _ _ _ hesrc]

/-- Total in-sum over all nodes equals the total rank mass (double counting
over the edge list, which requires no dangling nodes and well-formed
endpoints). -/
theorem sum_pageRankInSum (g : SGraph) (f : String → ℚ)
    (hnd : g.nodes.Nodup)
    (hsrc : ∀ e ∈ g.edges, e.src ∈ g.nodes)
    (htgt : ∀ e ∈ g.edges, e.tgt ∈ g.nodes)
    (hdang : ∀ u ∈ g.nodes, 0 < outDegOf g u) :
    (g.nodes.map (fun v =>
      pageRankInSum g (g.nodes.map (fun u => (u, f u))) v)).sum =
      (g.nodes.map f).sum := by
  have h1 : (g.nodes.map (fun v =>
      pageRankInSum g (g.nodes.map (fun u => (u, f u))) v)).sum =
      (g.nodes.map (fun v => ((g.edges.filter (fun e => e.tgt = v)).map
        (fun e => f e.src / (outDegOf g e.src : ℚ))).sum)).sum := by
    congr 1
    exact List.map_congr_left (fun v _ => pageRankInSum_eq g f v hsrc hdang)
  rw [h1, sum_fiber g.nodes (fun e => e.tgt)
    (fun e => f e.src / (outDegOf g e.src : ℚ)) g.edges hnd htgt]
  rw [← sum_fiber g.nodes (fun e => e.src)
    (fun e => f e.src / (outDegOf g e.src : ℚ)) g.edges hnd hsrc]
  congr 1
  apply List.map_congr_left
  intro u hu
  have hinner : ((g.edges.filter (fun e => e.src = u)).map
      (fun e => f e.src / (outDegOf g e.src : ℚ))) =
      ((g.edges.filter (fun e => e.src = u)).map
        (fun _ => f u / (outDegOf g u : ℚ))) := by
    apply List.map_congr_left
    intro e he
    have : e.src = u := by
      have := (List.mem_filter.mp he).2
      simpa using this
    rw [this]
  rw [hinner, sum_map_const]
  have hlen : ((g.edges.filter (fun e => e.src = u)).length : ℚ) =
      (outDegOf g u : ℚ) := by rw [outDegOf]
  rw [hlen]
  have hne : (outDegOf g u : ℚ) ≠ 0 :=
    Nat.cast_ne_zero.mpr (Nat.pos_iff_ne_zero.mp (hdang u hu))
  exact mul_div_cancel₀ (f u) hne

/-- One PageRank iteration preserves total mass 1 on a graph with no
dangling nodes. -/
theorem pageRankStep_sum (g : SGraph) (d : ℚ) (f : String → ℚ)
    (hne : g.nodes ≠ []) (hnd : g.nodes.Nodup)
    (hsrc : ∀ e ∈ g.edges, e.src ∈ g.nodes)
    (htgt : ∀ e ∈ g.edges, e.tgt ∈ g.nodes)
    (hdang : ∀ u ∈ g.nodes, 0 < outDegOf g u)
    (hsum : (g.nodes.map f).sum = 1) :
    (g.nodes.map (fun v => (1 - d) / (g.nodes.length : ℚ) +
      d * pageRankInSum g (g.nodes.map (fun u => (u, f u))) v)).sum = 1 := by
  rw [sum_map_add]
  rw [sum_map_const]
  have hlen : (g.nodes.length : ℚ) ≠ 0 :=
    Nat.cast_ne_zero.mpr
      (Nat.pos_iff_ne_zero.mp (List.length_pos_of_ne_nil hne))
  rw [List.sum_map_mul_left, sum_pageRankInSum g f hnd hsrc htgt hdang, hsum]
  field_simp

/-- C6: PageRank mass conservation.  For a non-empty well-formed graph with
no dangling nodes (every node has out-degree ≥ 1), the values returned by
`calculatePageRank` sum to exactly 1 — the uniform initial ranks sum to 1 and
the update `(1-d)/N + d·Σ rank(u)/outDegree(u)` preserves total mass — hence
in particular to ≈1 within any tolerance. -/
theorem calculatePageRank_mass_conservation (g : SGraph)
    (opts : PageRankOptions) (hne : g.nodes ≠ []) (hnd : g.nodes.Nodup)
    (hsrc : ∀ e ∈ g.edges, e.src ∈ g.nodes)
    (htgt : ∀ e ∈ g.edges, e.tgt ∈ g.nodes)
    (hdang : ∀ u ∈ g.nodes, 0 < outDegOf g u) :
    ((calculatePageRank g opts).map (fun p => p.2)).sum = 1 := by
  have hN : g.nodes.length ≠ 0 :=
    Nat.pos_iff_ne_zero.mp (List.length_pos_of_ne_nil hne)
  have hNq : (g.nodes.length : ℚ) ≠ 0 := Nat.cast_ne_zero.mpr hN
  -- the invariant carried through the loop
  have hloop : ∀ (fuel : ℕ) (f : String → ℚ),
      (g.nodes.map f).sum = 1 →
      ((pageRankLoop g opts.damping (g.nodes.length : ℚ) opts.tolerance fuel
        (g.nodes.map (fun v => (v, f v)))).map (fun p => p.2)).sum = 1 := by
    intro fuel
    induction fuel with
    | zero =>
      intro f hf
      simp only [pageRankLoop, List.map_map]
      simpa using hf
    | succ fuel ih =>
      intro f hf
      rw [pageRankLoop]
      have hstep : pageRankStep g opts.damping (g.nodes.length : ℚ)
          (g.nodes.map (fun v => (v, f v))) =
          g.nodes.map (fun v => (v, (1 - opts.damping) / (g.nodes.length : ℚ) +
            opts.damping *
              pageRankInSum g (g.nodes.map (fun u => (u, f u))) v)) := rfl
      have hnewsum := pageRankStep_sum g opts.damping f hne hnd hsrc htgt
        hdang hf
      rw [hstep]
      split_ifs
      · rw [List.map_map]
        exact hnewsum
      · exact ih (fun v => (1 - opts.damping) / (g.nodes.length : ℚ) +
          opts.damping * pageRankInSum g (g.nodes.map (fun u => (u, f u))) v)
          hnewsum
  unfold calculatePageRank
  rw [if_neg hN]
  exact hloop opts.iterations (fun _ => 1 / (g.nodes.length : ℚ))
    (by rw [sum_map_const]; field_simp)

/-- C6 witness: on the 2-cycle (no dangling nodes) the returned PageRank
values sum to 1. -/
theorem calculatePageRank_mass_conservation_witness :
    twoCycleGraph.nodes ≠ [] ∧ twoCycleGraph.nodes.Nodup ∧
    (∀ e ∈ twoCycleGraph.edges, e.src ∈ twoCycleGraph.nodes) ∧
    (∀ e ∈ twoCycleGraph.edges, e.tgt ∈ twoCycleGraph.nodes) ∧
    (∀ u ∈ twoCycleGraph.nodes, 0 < outDegOf twoCycleGraph u) ∧
    ((calculatePageRank twoCycleGraph defaultPageRankOptions).map
      (fun p => p.2)).sum = 1 :=
  ⟨by decide, by decide, by decide, by decide, by decide,
    calculatePageRank_mass_conservation twoCycleGraph defaultPageRankOptions
      (by decide) (by decide) (by decide) (by decide) (by decide)⟩

theorem lookup0_nonneg (l : List (String × ℚ)) (x : String)
    (h : ∀ p ∈ l, 0 ≤ p.2) : 0 ≤ lookup0 l x := by
  unfold lookup0
  rcases hg : getA l x with _ | v
  · simp
  · simpa using h (x, v) (getA_mem l x v hg)

theorem pageRankInSum_nonneg (g : SGraph) (ranks : List (String × ℚ))
    (h : ∀ p ∈ ranks, 0 ≤ p.2) (v : String) :
    0 ≤ pageRankInSum g ranks v := by
  unfold pageRankInSum
  apply List.sum_nonneg
  intro x hx
  obtain ⟨e, _, rfl⟩ := List.mem_map.mp hx
  split_ifs
  · exact div_nonneg (lookup0_nonneg ranks e.src h) (by positivity)
  · exact le_refl 0

/-- C10 (implicit): with the default options (damping 0.85, 100 iterations)
every value returned by `calculatePageRank` on a non-empty graph is at least
`(1-d)/N = (3/20)/N`, hence strictly positive — including for nodes with no
in-edges. -/
theorem calculatePageRank_lower_bound (g : SGraph) (hne : g.nodes ≠ []) :
    ∀ p ∈ calculatePageRank g defaultPageRankOptions,
      (3/20) / (g.nodes.length : ℚ) ≤ p.2 ∧ 0 < p.2 := by
  have hN : g.nodes.length ≠ 0 :=
    Nat.pos_iff_ne_zero.mp (List.length_pos_of_ne_nil hne)
  have hNpos : (0 : ℚ) < (g.nodes.length : ℚ) := by
    exact_mod_cast Nat.pos_of_ne_zero hN
  have hbound_pos : (0 : ℚ) < (3/20) / (g.nodes.length : ℚ) := by positivity
  -- after at least one step, every stored value is at least (1-d)/N
  have hstep_bound : ∀ (ranks : List (String × ℚ)), (∀ p ∈ ranks, 0 ≤ p.2) →
      ∀ p ∈ pageRankStep g (17/20) (g.nodes.length : ℚ) ranks,
        (3/20) / (g.nodes.length : ℚ) ≤ p.2 := by
    intro ranks hr p hp
    obtain ⟨v, _, rfl⟩ := List.mem_map.mp hp
    have h1 : 0 ≤ pageRankInSum g ranks v := pageRankInSum_nonneg g ranks hr v
    have : (1 - 17/20 : ℚ) = 3/20 := by norm_num
    dsimp only
    rw [this]
    nlinarith [h1]
  have hloop : ∀ (fuel : ℕ) (ranks : List (String × ℚ)),
      (∀ p ∈ ranks, 0 ≤ p.2) →
      ∀ p ∈ pageRankLoop g (17/20) (g.nodes.length : ℚ) (1/1000000)
        (fuel + 1) ranks, (3/20) / (g.nodes.length : ℚ) ≤ p.2 := by
    intro fuel
    induction fuel with
    | zero =>
      intro ranks hr
      rw [pageRankLoop]
      split_ifs
      · exact hstep_bound ranks hr
      · rw [pageRankLoop]
        exact hstep_bound ranks hr
    | succ fuel ih =>
      intro ranks hr
      rw [pageRankLoop]
      split_ifs
      · exact hstep_bound ranks hr
      · exact ih (pageRankStep g (17/20) (g.nodes.length : ℚ) ranks)
          (fun p hp => le_trans (le_of_lt hbound_pos) (hstep_bound ranks hr p hp))
  intro p hp
  have hb : (3/20) / (g.nodes.length : ℚ) ≤ p.2 := by
    unfold calculatePageRank at hp
    rw [if_neg hN] at hp
    have h100 : defaultPageRankOptions.iterations = 99 + 1 := rfl
    rw [h100] at hp
    refine hloop 99 (g.nodes.map (fun v => (v, 1 / (g.nodes.length : ℚ))))
      ?_ p ?_
    · intro q hq
      obtain ⟨v, _, rfl⟩ := List.mem_map.mp hq
      dsimp only
      positivity
    · exact hp
  exact ⟨hb, lt_of_lt_of_le hbound_pos hb⟩

/-- C10 witness: the theorem applied to the chain graph at the entry for node
D (which has no in-edges): its PageRank 3/80 is at least (3/20)/4 and
positive. -/
theorem calculatePageRank_lower_bound_witness :
    chainGraph.nodes ≠ [] ∧
    ("D", (3 : ℚ)/80) ∈ calculatePageRank chainGraph defaultPageRankOptions ∧
    ((3 : ℚ)/20) / (chainGraph.nodes.length : ℚ) ≤
      (("D", (3 : ℚ)/80) : String × ℚ).2 ∧
    (0 : ℚ) < (("D", (3 : ℚ)/80) : String × ℚ).2 :=
  ⟨by decide, by with_unfolding_all decide,
    (calculatePageRank_lower_bound chainGraph (by decide) ("D", (3 : ℚ)/80)
      (by with_unfolding_all decide)).1,
    (calculatePageRank_lower_bound chainGraph (by decide) ("D", (3 : ℚ)/80)
      (by with_unfolding_all decide)).2⟩

/-! ### Claim C8: betweenness and closeness are nonnegative, and zero on a
node with no edges -/

theorem bfsInner_sigma_nonneg (v : String) (s : BState) (w : String)
    (hs : ∀ x, 0 ≤ s.sigma x) : ∀ x, 0 ≤ (bfsInner v s w).sigma x := by
  intro x
  unfold bfsInner
  dsimp only
  split_ifs <;>
    first
      | exact hs x
      | (show (0 : ℚ) ≤ if x = w then _ + _ else _
         split_ifs <;> first | exact add_nonneg (hs _) (hs _) | exact hs x)

theorem bfsLoop_sigma_nonneg (g : SGraph) :
    ∀ (fuel : ℕ) (st : BState), (∀ x, 0 ≤ st.sigma x) →
      ∀ x, 0 ≤ (bfsLoop g fuel st).sigma x := by
  intro fuel
  induction fuel with
  | zero => intro st h; exact h
  | succ fuel ih =>
    intro st h
    rcases hq : st.queue with _ | ⟨v, rest⟩
    · simp only [bfsLoop, hq]
      exact h
    · simp only [bfsLoop, hq]
      apply ih
      have : ∀ x, 0 ≤ (BState.mk rest (st.stack ++ [v]) st.pred st.sigma
          st.dist).sigma x := h
      unfold bfsStep
      exact foldl_preserves (fun s => ∀ x, 0 ≤ s.sigma x) _ _ _ this
        (fun s' a _ hp => bfsInner_sigma_nonneg v s' a hp)

theorem accumStep_delta_nonneg (sigma : String → ℚ)
    (pred : String → List String) (w : String)
    (hσ : ∀ x, 0 ≤ sigma x) (delta : String → ℚ)
    (hd : ∀ x, 0 ≤ delta x) : ∀ x, 0 ≤ accumStep sigma pred w delta x := by
  unfold accumStep
  exact foldl_preserves (fun d => ∀ x, 0 ≤ d x) _ (pred w) delta hd
    (fun d v _ hp x => by
      show (0 : ℚ) ≤ if x = v then d v + (sigma v / sigma w) * (1 + d w)
        else d x
      split_ifs
      · exact add_nonneg (hp _)
          (mul_nonneg (div_nonneg (hσ v) (hσ w)) (by linarith [hp w]))
      · exact hp x)

theorem accumLoop_snd_nonneg (s : String) (sigma : String → ℚ)
    (pred : String → List String) (hσ : ∀ x, 0 ≤ sigma x) :
    ∀ (ws : List String) (delta bw : String → ℚ),
      (∀ x, 0 ≤ delta x) → (∀ x, 0 ≤ bw x) →
      ∀ x, 0 ≤ (accumLoop s sigma pred ws delta bw).2 x := by
  intro ws
  induction ws with
  | nil => intro delta bw _ hbw; exact hbw
  | cons w ws ih =>
    intro delta bw hd hbw
    simp only [accumLoop]
    apply ih
    · exact accumStep_delta_nonneg sigma pred w hσ delta hd
    · intro x
      by_cases hws : w = s
      · rw [if_pos hws]
        exact hbw x
      · rw [if_neg hws]
        show (0 : ℚ) ≤ if x = w
          then bw w + accumStep sigma pred w delta w else bw x
        split_ifs
        · exact add_nonneg (hbw w)
            (accumStep_delta_nonneg sigma pred w hσ delta hd w)
        · exact hbw x

theorem brandesSource_nonneg (g : SGraph) (bw : String → ℚ) (s : String)
    (hbw : ∀ x, 0 ≤ bw x) : ∀ x, 0 ≤ brandesSource g bw s x := by
  unfold brandesSource
  apply accumLoop_snd_nonneg
  · apply bfsLoop_sigma_nonneg
    intro x
    show (0 : ℚ) ≤ if x = s then 1 else 0
    split_ifs
    · exact zero_le_one
    · exact le_refl 0
  · intro _; exact le_refl 0
  · exact hbw

theorem betweennessFold_nonneg (g : SGraph) (sources : List String) :
    ∀ x, 0 ≤ (sources.foldl (fun b s => brandesSource g b s)
      (fun _ => (0 : ℚ))) x :=
  foldl_preserves (fun b => ∀ x, 0 ≤ b x) _ sources _
    (fun _ => le_refl 0)
    (fun b s _ hp => brandesSource_nonneg g b s hp)

theorem outNbrs_isolated_nil (g : SGraph) (w : String)
    (hiso : ∀ e ∈ g.edges, e.src ≠ w ∧ e.tgt ≠ w) : outNbrs g w = [] := by
  unfold outNbrs
  rw [List.filter_eq_nil_iff.mpr]
  · rfl
  · intro e he hsrc
    exact (hiso e he).1 (by simpa using hsrc)

theorem not_mem_outNbrs (g : SGraph) (w : String)
    (hiso : ∀ e ∈ g.edges, e.src ≠ w ∧ e.tgt ≠ w) (v : String) :
    w ∉ outNbrs g v := by
  intro hw
  obtain ⟨e, he, htgt⟩ := List.mem_map.mp hw
  exact (hiso e (List.mem_of_mem_filter he)).2 htgt

theorem bfsInner_avoid (v : String) (s : BState) (w a : String)
    (haw : a ≠ w) (hq : w ∉ s.queue) (hs : w ∉ s.stack) :
    w ∉ (bfsInner v s a).queue ∧ w ∉ (bfsInner v s a).stack := by
  have hwa : w ≠ a := fun he => haw he.symm
  unfold bfsInner
  dsimp only
  split_ifs <;> exact ⟨by simp_all [List.mem_append], by simp_all⟩

theorem bfsStep_avoid (g : SGraph) (v : String) (st : BState) (w : String)
    (hiso : ∀ e ∈ g.edges, e.src ≠ w ∧ e.tgt ≠ w)
    (hq : w ∉ st.queue) (hs : w ∉ st.stack) :
    w ∉ (bfsStep g v st).queue ∧ w ∉ (bfsStep g v st).stack := by
  unfold bfsStep
  exact foldl_preserves
    (fun s => w ∉ s.queue ∧ w ∉ s.stack) _ (outNbrs g v) st ⟨hq, hs⟩
    (fun s' a ha hp => bfsInner_avoid v s' w a
      (fun he => not_mem_outNbrs g w hiso v (he ▸ ha)) hp.1 hp.2)

theorem bfsLoop_avoid (g : SGraph) (w : String)
    (hiso : ∀ e ∈ g.edges, e.src ≠ w ∧ e.tgt ≠ w) :
    ∀ (fuel : ℕ) (st : BState), w ∉ st.queue → w ∉ st.stack →
      w ∉ (bfsLoop g fuel st).stack := by
  intro fuel
  induction fuel with
  | zero => intro st _ hs; exact hs
  | succ fuel ih =>
    intro st hq hs
    rcases hqe : st.queue with _ | ⟨v, rest⟩
    · simp only [bfsLoop, hqe]
      exact hs
    · simp only [bfsLoop, hqe]
      have hv : w ≠ v := fun he => hq (by rw [hqe, he]; simp)
      have hrest : w ∉ rest := fun he => hq (by rw [hqe]; simp [he])
      have hstack : w ∉ st.stack ++ [v] := by
        intro hcon
        rcases List.mem_append.mp hcon with h | h
        · exact hs h
        · exact hv (List.mem_singleton.mp h)
      have := bfsStep_avoid g v
        (BState.mk rest (st.stack ++ [v]) st.pred st.sigma st.dist) w hiso
        hrest hstack
      exact ih _ this.1 this.2

theorem accumLoop_snd_other (s : String) (sigma : String → ℚ)
    (pred : String → List String) (w : String) :
    ∀ (ws : List String) (delta bw : String → ℚ), w ∉ ws →
      (accumLoop s sigma pred ws delta bw).2 w = bw w := by
  intro ws
  induction ws with
  | nil => intro delta bw _; rfl
  | cons w' ws ih =>
    intro delta bw hw
    have hww' : w ≠ w' := fun he => hw (by simp [he])
    have hws : w ∉ ws := fun he => hw (by simp [he])
    simp only [accumLoop]
    rw [ih _ _ hws]
    by_cases hws' : w' = s
    · rw [if_pos hws']
    · rw [if_neg hws']
      show (if w = w' then bw w' + accumStep sigma pred w' delta w' else bw w)
        = bw w
      rw [if_neg hww']

theorem bfsLoop_queue_nil (g : SGraph) :
    ∀ (fuel : ℕ) (st : BState), st.queue = [] → bfsLoop g fuel st = st := by
  intro fuel
  cases fuel with
  | zero => intro st _; rfl
  | succ fuel => intro st hq; simp only [bfsLoop, hq]

theorem brandesSource_other (g : SGraph) (bw : String → ℚ) (s w : String)
    (hiso : ∀ e ∈ g.edges, e.src ≠ w ∧ e.tgt ≠ w) (hsw : s ≠ w) :
    brandesSource g bw s w = bw w := by
  unfold brandesSource
  apply accumLoop_snd_other
  rw [List.mem_reverse]
  apply bfsLoop_avoid g w hiso
  · have hws : ¬w = s := fun h => hsw h.symm
    simp [hws]
  · simp

theorem brandesSource_self (g : SGraph) (bw : String → ℚ) (w : String)
    (hiso : ∀ e ∈ g.edges, e.src ≠ w ∧ e.tgt ≠ w) :
    brandesSource g bw w w = bw w := by
  unfold brandesSource
  have hnil : outNbrs g w = [] := outNbrs_isolated_nil g w hiso
  have h1 : bfsLoop g (g.nodes.length + 1)
      (BState.mk [w] [] (fun _ => []) (fun x => if x = w then 1 else 0)
        (fun x => if x = w then 0 else -1)) =
      BState.mk [] [w] (fun _ => []) (fun x => if x = w then 1 else 0)
        (fun x => if x = w then 0 else -1) := by
    simp only [bfsLoop]
    rw [show bfsStep g w (BState.mk [] ([] ++ [w]) (fun _ => [])
        (fun x => if x = w then 1 else 0) (fun x => if x = w then 0 else -1)) =
        BState.mk [] [w] (fun _ => []) (fun x => if x = w then 1 else 0)
          (fun x => if x = w then 0 else -1) by
      unfold bfsStep; rw [hnil]; rfl]
    exact bfsLoop_queue_nil g _ _ rfl
  rw [h1]
  simp only [accumLoop, accumStep, List.reverse_singleton]
  simp

theorem closenessOf_nonneg (g : SGraph) (s : String) : 0 ≤ closenessOf g s := by
  unfold closenessOf
  dsimp only
  split_ifs
  · positivity
  · exact le_refl 0

theorem closeBFS_queue_nil (g : SGraph) :
    ∀ (fuel : ℕ) (dist : String → Option ℕ) (td r : ℕ),
      closeBFS g fuel [] dist td r = (td, r) := by
  intro fuel
  cases fuel with
  | zero => intro dist td r; rfl
  | succ fuel => intro dist td r; simp only [closeBFS]

theorem closenessOf_isolated (g : SGraph) (w : String)
    (hiso : ∀ e ∈ g.edges, e.src ≠ w ∧ e.tgt ≠ w) : closenessOf g w = 0 := by
  unfold closenessOf
  have hnil : outNbrs g w = [] := outNbrs_isolated_nil g w hiso
  have h1 : closeBFS g (g.nodes.length + 1) [w]
      (fun x => if x = w then some 0 else none) 0 0 = (0, 0) := by
    simp only [closeBFS, hnil, List.foldl_nil]
    exact closeBFS_queue_nil g _ _ _ _
  rw [h1]
  rfl

theorem lookup0_calculateCloseness (g : SGraph) (v : String)
    (hv : v ∈ g.nodes) :
    lookup0 (calculateCloseness g) v = closenessOf g v :=
  lookup0_map_self g.nodes (fun s => closenessOf g s) v hv

/-- C8: for every graph and every node of it, the betweenness value returned
by `calculateBetweenness` and the closeness value returned by
`calculateCloseness` are nonnegative; and for a node incident to no edge,
both are exactly 0. -/
theorem betweenness_closeness_nonneg_isolated_zero (g : SGraph) (v : String)
    (hv : v ∈ g.nodes) :
    0 ≤ lookup0 (calculateBetweenness g) v ∧
    0 ≤ lookup0 (calculateCloseness g) v ∧
    ((∀ e ∈ g.edges, e.src ≠ v ∧ e.tgt ≠ v) →
      lookup0 (calculateBetweenness g) v = 0 ∧
      lookup0 (calculateCloseness g) v = 0) := by
  have hbwpos := betweennessFold_nonneg g g.nodes
  have hnorm : ¬2 < g.nodes.length ∨ (0 : ℚ) ≤
      1 / (((g.nodes.length : ℚ) - 1) * ((g.nodes.length : ℚ) - 2)) := by
    by_cases hN : 2 < g.nodes.length
    · refine Or.inr ?_
      have h3 : (2 : ℚ) < (g.nodes.length : ℚ) := by exact_mod_cast hN
      have : (0 : ℚ) < ((g.nodes.length : ℚ) - 1) *
          ((g.nodes.length : ℚ) - 2) := by nlinarith
      positivity
    · exact Or.inl hN
  refine ⟨?_, ?_, ?_⟩
  · unfold calculateBetweenness calculateBetweennessOn
    dsimp only
    split_ifs with h1 h2
    · exact absurd h2 (lt_irrefl _)
    · rw [lookup0_map_self _ _ _ hv]
      rcases hnorm with h | h
      · exact absurd h1 h
      · exact mul_nonneg (mul_nonneg (hbwpos v) h) zero_le_one
    · rw [lookup0_map_self _ _ _ hv]
      exact hbwpos v
  · rw [lookup0_calculateCloseness g v hv]
    exact closenessOf_nonneg g v
  · intro hiso
    have hzero : (g.nodes.foldl (fun b s => brandesSource g b s)
        (fun _ => (0 : ℚ))) v = 0 := by
      refine foldl_preserves (fun b => b v = 0)
        (fun b s => brandesSource g b s) g.nodes (fun _ => (0 : ℚ)) rfl ?_
      intro b s _ hp
      show brandesSource g b s v = 0
      by_cases hsv : s = v
      · rw [hsv, brandesSource_self g b v hiso]
        exact hp
      · rw [brandesSource_other g b s v hiso hsv]
        exact hp
    constructor
    · unfold calculateBetweenness calculateBetweennessOn
      dsimp only
      split_ifs with h1 h2
      · exact absurd h2 (lt_irrefl _)
      · rw [lookup0_map_self _ _ _ hv, hzero]
        ring
      · rw [lookup0_map_self _ _ _ hv, hzero]
    · rw [lookup0_calculateCloseness g v hv]
      exact closenessOf_isolated g v hiso

/-- C8 witness: the theorem applied to the graph with the single edge A→B at
the isolated node C. -/
theorem betweenness_closeness_nonneg_isolated_zero_witness :
    "C" ∈ isolatedNodeGraph.nodes ∧
    (∀ e ∈ isolatedNodeGraph.edges, e.src ≠ "C" ∧ e.tgt ≠ "C") ∧
    0 ≤ lookup0 (calculateBetweenness isolatedNodeGraph) "C" ∧
    0 ≤ lookup0 (calculateCloseness isolatedNodeGraph) "C" ∧
    lookup0 (calculateBetweenness isolatedNodeGraph) "C" = 0 ∧
    lookup0 (calculateCloseness isolatedNodeGraph) "C" = 0 := by
  have h := betweenness_closeness_nonneg_isolated_zero isolatedNodeGraph "C"
    (by decide)
  have hiso : ∀ e ∈ isolatedNodeGraph.edges, e.src ≠ "C" ∧ e.tgt ≠ "C" := by
    decide
  exact ⟨by decide, hiso, h.1, h.2.1, (h.2.2 hiso).1, (h.2.2 hiso).2⟩

end MoltMist
